import Mathlib

/-!
Shallow embedding of the kolory color-utilities engine: the parsing,
validation, normalization and conversion pipeline of library.ts together
with the convert layer of the companion library file.  Strings are Lean
strings, the integral paths use Nat and Int, the color-space math uses Rat,
the photometric math uses Real, and thrown TypeErrors are an explicit
error type.
-/

namespace ColorUtilities

/-- Errors thrown by the library.  All are TypeError in the source; the
constructor records which throw site produced the error. -/
inductive ThrownError : Type
  | invalidHex (s : String)
  | invalidRgb (s : String)
  | invalidHsl (s : String)
  | parseInvalid (s : String)
  | invalidTarget
  | nullCrash
  deriving DecidableEq

/-- Decidable equality of results, used to evaluate the pipeline on
concrete inputs. -/
def exceptDecEq {ε α : Type} [DecidableEq ε] [DecidableEq α] :
    (x y : Except ε α) → Decidable (x = y)
  | .ok a, .ok b =>
      if h : a = b then isTrue (by rw [h]) else isFalse (fun hh => h (Except.ok.inj hh))
  | .error e, .error f =>
      if h : e = f then isTrue (by rw [h]) else isFalse (fun hh => h (Except.error.inj hh))
  | .ok _, .error _ => isFalse (fun hh => Except.noConfusion hh)
  | .error _, .ok _ => isFalse (fun hh => Except.noConfusion hh)

instance {ε α : Type} [DecidableEq ε] [DecidableEq α] : DecidableEq (Except ε α) :=
  exceptDecEq

/-- The ColorTypes enum. -/
inductive ColorTypes : Type
  | hex
  | rgb
  | hsl
  | invalidType
  deriving DecidableEq

/-- The characters matched by the whitespace class of JavaScript regexes. -/
def jsSpaceChars : List Char :=
  [' ', '\t', '\n', '\r', '\x0b', '\x0c',
   '\u00A0', '\u1680', '\u2000', '\u2001', '\u2002', '\u2003', '\u2004',
   '\u2005', '\u2006', '\u2007', '\u2008', '\u2009', '\u200A',
   '\u2028', '\u2029', '\u202F', '\u205F', '\u3000', '\uFEFF']

def isJsSpace (c : Char) : Bool := jsSpaceChars.contains c

def isDigitChar (c : Char) : Bool := 48 ≤ c.toNat && c.toNat ≤ 57

def isHexDigitChar (c : Char) : Bool :=
  isDigitChar c || (65 ≤ c.toNat && c.toNat ≤ 70) || (97 ≤ c.toNat && c.toNat ≤ 102)

/-- An uppercase hexadecimal digit: either a digit or A through F. -/
def isUpperHexDigit (c : Char) : Bool :=
  isDigitChar c || (65 ≤ c.toNat && c.toNat ≤ 70)

/-- ASCII lowercasing, as toLowerCase acts on the characters these grammars use. -/
def toLowerChar (c : Char) : Char :=
  if 65 ≤ c.toNat && c.toNat ≤ 90 then Char.ofNat (c.toNat + 32) else c

/-- ASCII uppercasing, as toUpperCase acts on the characters these grammars use. -/
def toUpperChar (c : Char) : Char :=
  if 97 ≤ c.toNat && c.toNat ≤ 122 then Char.ofNat (c.toNat - 32) else c

def digitVal (c : Char) : ℕ := c.toNat - 48

def hexDigitVal (c : Char) : ℕ :=
  if isDigitChar c then c.toNat - 48
  else if 65 ≤ c.toNat && c.toNat ≤ 70 then c.toNat - 55
  else if 97 ≤ c.toNat && c.toNat ≤ 102 then c.toNat - 87
  else 0

def digitChar (n : ℕ) : Char := Char.ofNat (48 + n)

def hexDigitChar (n : ℕ) : Char := if n < 10 then digitChar n else Char.ofNat (87 + n)

/-- Decimal digits of a natural number, fuelled so that it is structural. -/
def toDecCore : ℕ → ℕ → List Char
  | 0, _ => []
  | f + 1, n => if n < 10 then [digitChar n] else toDecCore f (n / 10) ++ [digitChar (n % 10)]

/-- Decimal digits of a natural number, as JavaScript renders one. -/
def toDec (n : ℕ) : List Char := toDecCore (n + 1) n

def toHexCore : ℕ → ℕ → List Char
  | 0, _ => []
  | f + 1, n => if n < 16 then [hexDigitChar n] else toHexCore f (n / 16) ++ [hexDigitChar (n % 16)]

/-- JavaScript toString with base 16 on an integer. -/
def intToHexStr (v : ℤ) : List Char :=
  if v < 0 then '-' :: toHexCore (v.natAbs + 1) v.natAbs else toHexCore (v.natAbs + 1) v.natAbs

/-- JavaScript String applied to an integer. -/
def intToDecStr (v : ℤ) : List Char :=
  if v < 0 then '-' :: toDec v.natAbs else toDec v.natAbs

/-- Numeric value of a string of decimal digits; JavaScript Number agrees with
this on every digit group that getValues extracts. -/
def parseDec (l : List Char) : ℕ := l.foldl (fun a c => 10 * a + digitVal c) 0

/-- One step of the scan of the global regex for runs of one to three digits:
the state is the list of finished groups plus the group being read. -/
def dgStep (st : List (List Char) × List Char) (c : Char) : List (List Char) × List Char :=
  if isDigitChar c then
    if st.2.length = 3 then (st.1 ++ [st.2], [c]) else (st.1, st.2 ++ [c])
  else if st.2.isEmpty then st
  else (st.1 ++ [st.2], [])

/-- All matches of the global regex for runs of one to three digits. -/
def digitGroups (l : List Char) : List (List Char) :=
  let st := l.foldl dgStep ([], [])
  if st.2.isEmpty then st.1 else st.1 ++ [st.2]

/-- getValues: String.match with a global regex returns null (here none)
when the string holds no digit at all. -/
def getValues (s : String) : Option (List (List Char)) :=
  let gs := digitGroups s.data
  if gs.isEmpty then none else some gs

/-- trimAndLowercase: drop every whitespace character, then lowercase. -/
def trimAndLowercase (s : String) : String :=
  String.mk ((s.data.filter fun c => !isJsSpace c).map toLowerChar)

/-- Consume a run of one to three digits, as the anchored regexes demand. -/
def chompDigits (l : List Char) : Option (List Char) :=
  let ds := l.takeWhile isDigitChar
  if ds.isEmpty || decide (3 < ds.length) then none else some (l.dropWhile isDigitChar)

def expectChar (c : Char) : List Char → Option (List Char)
  | [] => none
  | x :: rest => if x = c then some rest else none

def rgbTail (l : List Char) : Option Unit := do
  let r1 ← chompDigits l
  let r2 ← expectChar ',' r1
  let r3 ← chompDigits r2
  let r4 ← expectChar ',' r3
  let r5 ← chompDigits r4
  let r6 ← expectChar ')' r5
  if r6.isEmpty then some () else none

/-- The anchored format regex of isValidRgbColor. -/
def rgbFormatValid : List Char → Bool
  | c1 :: c2 :: c3 :: c4 :: rest =>
      c1 = 'r' && c2 = 'g' && c3 = 'b' && c4 = '(' && (rgbTail rest).isSome
  | _ => false

def hslTail (l : List Char) : Option Unit := do
  let r1 ← chompDigits l
  let r2 ← expectChar ',' r1
  let r3 ← chompDigits r2
  let r4 ← expectChar '%' r3
  let r5 ← expectChar ',' r4
  let r6 ← chompDigits r5
  let r7 ← expectChar '%' r6
  let r8 ← expectChar ')' r7
  if r8.isEmpty then some () else none

/-- The anchored format regex of isValidHslColor. -/
def hslFormatValid : List Char → Bool
  | c1 :: c2 :: c3 :: c4 :: rest =>
      c1 = 'h' && c2 = 's' && c3 = 'l' && c4 = '(' && (hslTail rest).isSome
  | _ => false

/-- isValidHexColor: a hash sign followed by six or three hex digits.
Falsy input (the empty string) yields false. -/
def isValidHexColor (s : String) : Bool :=
  match s.data with
  | c :: rest => c = '#' && (rest.length = 6 || rest.length = 3) && rest.all isHexDigitChar
  | _ => false

/-- isValidHexColor on a possibly absent argument. -/
def isValidHexColorOpt : Option String → Bool
  | none => false
  | some s => isValidHexColor s

/-- The leading-zero regex used by isRangeValid. -/
def leadZero : List Char → Bool
  | c1 :: c2 :: _ => c1 = '0' && isDigitChar c2
  | _ => false

def allFromIndex (validator : ℕ → ℕ → Bool) : ℕ → List ℕ → Bool
  | _, [] => true
  | i, v :: rest => validator v i && allFromIndex validator (i + 1) rest

/-- isRangeValid; none models the crash of calling every on a null match. -/
def isRangeValid (s : String) (validator : ℕ → ℕ → Bool) : Option Bool :=
  match getValues s with
  | none => none
  | some gs =>
      some ((gs.all fun g => !leadZero g) && allFromIndex validator 0 (gs.map parseDec))

def rgbRange (value : ℕ) (_index : ℕ) : Bool := decide (0 ≤ value) && decide (value ≤ 255)

def validateHslRange (value : ℕ) (index : ℕ) : Bool :=
  if index = 0 then decide (0 ≤ value) && decide (value ≤ 360)
  else decide (0 ≤ value) && decide (value ≤ 100)

/-- isValidRgbColor on a possibly absent argument. -/
def isValidRgbColor : Option String → Option Bool
  | none => some false
  | some s =>
      if s = "" then some false
      else if rgbFormatValid (trimAndLowercase s).data then isRangeValid s rgbRange
      else some false

/-- isValidHslColor on a possibly absent argument. -/
def isValidHslColor : Option String → Option Bool
  | none => some false
  | some s =>
      if s = "" then some false
      else if hslFormatValid (trimAndLowercase s).data then isRangeValid s validateHslRange
      else some false

/-- isValidColor: the three validators joined by short-circuit disjunction. -/
def isValidColor (o : Option String) : Option Bool :=
  if isValidHexColorOpt o then some true
  else match isValidRgbColor o with
    | none => none
    | some true => some true
    | some false => isValidHslColor o

/-- resolveColorType; a crash inside a validator propagates. -/
def resolveColorType (s : String) : Except ThrownError ColorTypes :=
  if isValidHexColor s then .ok .hex
  else match isValidRgbColor (some s) with
    | none => .error .nullCrash
    | some true => .ok .rgb
    | some false =>
        match isValidHslColor (some s) with
        | none => .error .nullCrash
        | some true => .ok .hsl
        | some false => .ok .invalidType

/-- normalizeHexColor: a missing leading hash sign is prepended, the candidate
is validated, a four-character candidate is expanded digit by digit, and the
outcome is uppercased. -/
def normalizeHexColor (s : String) : Except ThrownError String :=
  let potential : List Char := if s.data.head? = some '#' then s.data else '#' :: s.data
  if isValidHexColor (String.mk potential) then
    if potential.length = 4 then
      .ok (String.mk (('#' :: (potential.drop 1).flatMap fun d => [d, d]).map toUpperChar))
    else .ok (String.mk (potential.map toUpperChar))
  else .error (.invalidHex (String.mk potential))

def removeSpaces (l : List Char) : List Char := l.filter fun c => !isJsSpace c

/-- The replacement of each comma by a comma and a space. -/
def commaSpace (l : List Char) : List Char := l.flatMap fun c => if c = ',' then [',', ' '] else [c]

/-- normalizeRgbColor: lowercase, validate, strip spaces, respace commas. -/
def normalizeRgbColor (s : String) : Except ThrownError String :=
  let potential := String.mk (s.data.map toLowerChar)
  match isValidRgbColor (some potential) with
  | none => .error .nullCrash
  | some false => .error (.invalidRgb potential)
  | some true => .ok (String.mk (commaSpace (removeSpaces potential.data)))

/-- normalizeHslColor: lowercase, validate, strip spaces, respace commas. -/
def normalizeHslColor (s : String) : Except ThrownError String :=
  let potential := String.mk (s.data.map toLowerChar)
  match isValidHslColor (some potential) with
  | none => .error .nullCrash
  | some false => .error (.invalidHsl potential)
  | some true => .ok (String.mk (commaSpace (removeSpaces potential.data)))

/-- splitHexColor: the substrings at positions one to three, three to five and
five to seven, uppercased.  The source performs no validation here. -/
def splitHexColor (s : String) : List String :=
  [(1, 3), (3, 5), (5, 7)].map fun p =>
    String.mk (((s.data.take p.2).drop p.1).map toUpperChar)

/-- changeHexToNumber, as parseInt with base 16 acts on the extracted pairs. -/
def changeHexToNumber (s : String) : ℕ :=
  s.data.foldl (fun a c => 16 * a + hexDigitVal c) 0

def parseHexColor (s : String) : Except ThrownError (List ℤ) := do
  let n ← normalizeHexColor s
  pure ((splitHexColor n).map fun p => (changeHexToNumber p : ℤ))

def splitRgbColor (s : String) : Except ThrownError (List ℤ) :=
  match getValues s with
  | none => .error .nullCrash
  | some gs => .ok (gs.map fun g => (parseDec g : ℤ))

def parseRgbColor (s : String) : Except ThrownError (List ℤ) := do
  let n ← normalizeRgbColor s
  splitRgbColor n

/-- Truncation toward zero, as the JavaScript remainder operator uses. -/
def ratTrunc (q : ℚ) : ℤ := if q < 0 then ⌈q⌉ else ⌊q⌋

/-- The JavaScript remainder, whose sign follows the dividend. -/
def jsMod (a b : ℚ) : ℚ := a - b * ratTrunc (a / b)

/-- The RGB values splitHslColor computes from its three extracted numbers. -/
def hslToRgb (hue saturation lightness : ℕ) : List ℤ :=
  let nS : ℚ := (saturation : ℚ) / 100
  let nL : ℚ := (lightness : ℚ) / 100
  let chroma : ℚ := (1 - |2 * nL - 1|) * nS
  let nH : ℚ := (hue : ℚ) / 60
  let x : ℚ := chroma * (1 - |jsMod nH 2 - 1|)
  let m : ℚ := nL - chroma / 2
  let tri : ℚ × ℚ × ℚ :=
    if nH ≤ 1 then (chroma, x, 0)
    else if nH ≤ 2 then (x, chroma, 0)
    else if nH ≤ 3 then (0, chroma, x)
    else if nH ≤ 4 then (0, x, chroma)
    else if nH ≤ 5 then (x, 0, chroma)
    else (chroma, 0, x)
  [round ((tri.1 + m) * 255), round ((tri.2.1 + m) * 255), round ((tri.2.2 + m) * 255)]

/-- splitHslColor; the parser only reaches it with three digit groups. -/
def splitHslColor (s : String) : Except ThrownError (List ℤ) :=
  match getValues s with
  | none => .error .nullCrash
  | some gs =>
      .ok (hslToRgb (parseDec (gs.getD 0 [])) (parseDec (gs.getD 1 [])) (parseDec (gs.getD 2 [])))

def parseHslColor (s : String) : Except ThrownError (List ℤ) := do
  let n ← normalizeHslColor s
  splitHslColor n

/-- parseColor: resolve the type, dispatch, throw on an invalid color. -/
def parseColor (s : String) : Except ThrownError (List ℤ) :=
  match resolveColorType s with
  | .error e => .error e
  | .ok .hex => parseHexColor s
  | .ok .rgb => parseRgbColor s
  | .ok .hsl => parseHslColor s
  | .ok .invalidType => .error (.parseInvalid s)

/-- convertValuesToHex: a value below ten is padded with a zero and printed in
base ten, every other value is printed in base sixteen, and the concatenation
is normalized. -/
def convertValuesToHex (values : List ℤ) : Except ThrownError String :=
  normalizeHexColor (String.mk ('#' :: values.flatMap fun v =>
    if v < 10 then '0' :: intToDecStr v else intToHexStr v))

def joinSep (sep : List Char) : List (List Char) → List Char
  | [] => []
  | [x] => x
  | x :: xs => x ++ sep ++ joinSep sep xs

/-- convertValuesToRgb: the values joined by comma-space inside rgb parens. -/
def convertValuesToRgb (values : List ℤ) : String :=
  String.mk ('r' :: 'g' :: 'b' :: '(' :: (joinSep [',', ' '] (values.map intToDecStr) ++ [')']))

/-- intermediaryHue of convertValuesToHsl, on the normalized channels. -/
def hslIntermediaryHue (nR nG nB : ℚ) : ℚ :=
  let bigM : ℚ := max nR (max nG nB)
  let littleM : ℚ := min nR (min nG nB)
  let chroma : ℚ := bigM - littleM
  if chroma ≠ 0 then
    if bigM = nR then jsMod ((nG - nB) / chroma) 6
    else if bigM = nG then (nB - nR) / chroma + 2
    else (nR - nG) / chroma + 4
  else 0

/-- The hue, saturation and lightness figures convertValuesToHsl emits. -/
def hslComponents (r g b : ℤ) : ℤ × ℤ × ℤ :=
  let nR : ℚ := (r : ℚ) / 255
  let nG : ℚ := (g : ℚ) / 255
  let nB : ℚ := (b : ℚ) / 255
  let bigM : ℚ := max nR (max nG nB)
  let littleM : ℚ := min nR (min nG nB)
  let chroma : ℚ := bigM - littleM
  let hue : ℤ := round (hslIntermediaryHue nR nG nB * 60)
  let lightness : ℚ := (bigM + littleM) / 2
  let saturation : ℚ :=
    if lightness = 1 then 1
    else if lightness = 0 then 0
    else chroma / (1 - |2 * lightness - 1|)
  (if 0 ≤ hue then hue else 360 + hue, round (saturation * 100), round (lightness * 100))

/-- convertValuesToHsl; destructuring takes the first three values. -/
def convertValuesToHsl (values : List ℤ) : String :=
  let c := hslComponents (values.getD 0 0) (values.getD 1 0) (values.getD 2 0)
  String.mk ('h' :: 's' :: 'l' :: '(' ::
    (intToDecStr c.1 ++ [',', ' '] ++ intToDecStr c.2.1 ++ ['%', ',', ' '] ++
     intToDecStr c.2.2 ++ ['%', ')']))

/-- convertRawValuesTo: dispatch on the target type, throwing on the invalid
member of the enum. -/
def convertRawValuesTo (values : List ℤ) : ColorTypes → Except ThrownError String
  | .hex => convertValuesToHex values
  | .rgb => .ok (convertValuesToRgb values)
  | .hsl => .ok (convertValuesToHsl values)
  | .invalidType => .error .invalidTarget

/-- The target argument of convert: either an enum member or a raw string. -/
inductive ToArg : Type
  | ofType (t : ColorTypes)
  | ofString (s : String)

/-- convertStringTypeToEnum; an unknown string maps to the invalid member. -/
def convertStringTypeToEnum (t : String) : ColorTypes :=
  if t = "hex" then .hex else if t = "rgb" then .rgb
  else if t = "hsl" then .hsl else .invalidType

def resolveToArg : ToArg → ColorTypes
  | .ofType t => t
  | .ofString s => convertStringTypeToEnum s

/-- convert: the target tag is resolved, then the source is parsed, and only
then is the triplet formatted toward the target. -/
def convert (color : String) (target : ToArg) : Except ThrownError String :=
  (parseColor color).bind fun values => convertRawValuesTo values (resolveToArg target)

/-- One channel of the luminance sum: normalize to the unit interval and
linearize per the W3C formula. -/
noncomputable def srgbChannel (v : ℤ) : ℝ :=
  let c : ℝ := (v : ℝ) / 255
  if c ≤ 0.03928 then c / 12.92 else ((c + 0.055) / 1.055) ^ (2.4 : ℝ)

noncomputable def multipliers : List ℝ := [0.2126, 0.7152, 0.0722]

/-- The weighted sum of the linearized channels; a parsed color always has
exactly three values, one per multiplier. -/
noncomputable def lumOfValues (values : List ℤ) : ℝ :=
  (List.zipWith (fun v mult => srgbChannel v * mult) values multipliers).sum

/-- calculateLuminanceOf: parse, then the weighted linearized sum. -/
noncomputable def calculateLuminanceOf (color : String) : Except ThrownError ℝ :=
  (parseColor color).map lumOfValues

/-- The contrast of two luminances: sort them descending, add the offset to
each, divide the larger by the smaller. -/
noncomputable def contrastOfLums (l1 l2 : ℝ) : ℝ :=
  if l2 > l1 then (l2 + 0.05) / (l1 + 0.05) else (l1 + 0.05) / (l2 + 0.05)

/-- calculateContrastRatio: both luminances, first argument first. -/
noncomputable def calculateContrastRatio (c1 c2 : String) : Except ThrownError ℝ :=
  (calculateLuminanceOf c1).bind fun l1 =>
    (calculateLuminanceOf c2).map fun l2 => contrastOfLums l1 l2

/-! ### Character facts -/

theorem charOfNat_toNat_small {t : ℕ} (h1 : 32 ≤ t) (h2 : t ≤ 126) :
    (Char.ofNat t).toNat = t := by
  interval_cases t <;> decide

theorem isDigitChar_iff {c : Char} : isDigitChar c = true ↔ 48 ≤ c.toNat ∧ c.toNat ≤ 57 := by
  simp [isDigitChar]

theorem digit_char_toNat {n : ℕ} (h : n < 10) : (digitChar n).toNat = 48 + n := by
  unfold digitChar
  interval_cases n <;> decide

theorem isDigitChar_digitChar {n : ℕ} (h : n < 10) : isDigitChar (digitChar n) = true := by
  unfold digitChar isDigitChar
  interval_cases n <;> decide

theorem digitVal_digitChar {n : ℕ} (h : n < 10) : digitVal (digitChar n) = n := by
  unfold digitChar digitVal
  interval_cases n <;> decide

theorem digitChar_ne_zero {n : ℕ} (h1 : 0 < n) (h2 : n < 10) : digitChar n ≠ '0' := by
  unfold digitChar
  interval_cases n <;> decide

theorem toLowerChar_of_digit {c : Char} (h : isDigitChar c = true) : toLowerChar c = c := by
  rw [isDigitChar_iff] at h
  unfold toLowerChar
  rw [if_neg]
  simp only [Bool.and_eq_true, decide_eq_true_eq, not_and]
  omega

theorem isDigitChar_of_toLowerChar {c : Char} (h : isDigitChar (toLowerChar c) = true) :
    isDigitChar c = true := by
  unfold toLowerChar at h
  by_cases hc : 65 ≤ c.toNat ∧ c.toNat ≤ 90
  · rw [if_pos (by simpa using hc)] at h
    rw [isDigitChar_iff] at h
    rw [charOfNat_toNat_small (by omega) (by omega)] at h
    exact absurd h (by omega)
  · rwa [if_neg (by simpa using hc)] at h

theorem isJsSpace_nat_range {c : Char} (h : isJsSpace c = true) : c.toNat < 48 ∨ 57 < c.toNat := by
  have hm : c ∈ jsSpaceChars := by simpa [isJsSpace] using h
  fin_cases hm <;> decide

theorem isJsSpace_of_digit {c : Char} (h : isDigitChar c = true) : isJsSpace c = false := by
  rw [isDigitChar_iff] at h
  cases hs : isJsSpace c
  · rfl
  · exact absurd (isJsSpace_nat_range hs) (by omega)

/-! ### Decimal rendering -/

theorem parseDec_append_single (l : List Char) (c : Char) :
    parseDec (l ++ [c]) = 10 * parseDec l + digitVal c := by
  simp [parseDec, List.foldl_append]

theorem toDecCore_parse : ∀ f n, n < 10 ^ f → parseDec (toDecCore f n) = n := by
  intro f
  induction f with
  | zero =>
      intro n h
      simp only [pow_zero, Nat.lt_one_iff] at h
      subst h
      rfl
  | succ f ih =>
      intro n h
      by_cases h10 : n < 10
      · simp only [toDecCore, if_pos h10]
        simp [parseDec, digitVal_digitChar h10]
      · rw [toDecCore, if_neg h10, parseDec_append_single]
        have hdiv : n / 10 < 10 ^ f := by
          apply Nat.div_lt_of_lt_mul
          rw [pow_succ] at h
          omega
        rw [ih (n / 10) hdiv, digitVal_digitChar (Nat.mod_lt _ (by norm_num))]
        omega

theorem toDecCore_digits : ∀ f n c, c ∈ toDecCore f n → isDigitChar c = true := by
  intro f
  induction f with
  | zero => intro n c h; simp [toDecCore] at h
  | succ f ih =>
      intro n c h
      by_cases h10 : n < 10
      · rw [toDecCore, if_pos h10] at h
        rw [List.mem_singleton] at h
        subst h
        exact isDigitChar_digitChar h10
      · rw [toDecCore, if_neg h10, List.mem_append] at h
        rcases h with h | h
        · exact ih _ _ h
        · rw [List.mem_singleton] at h
          subst h
          exact isDigitChar_digitChar (Nat.mod_lt _ (by norm_num))

theorem toDecCore_ne_nil : ∀ f n, 0 < f → toDecCore f n ≠ [] := by
  intro f n hf
  cases f with
  | zero => omega
  | succ f =>
      by_cases h10 : n < 10
      · rw [toDecCore, if_pos h10]
        simp
      · rw [toDecCore, if_neg h10]
        simp

theorem toDecCore_length : ∀ f n, (toDecCore f n).length ≤ f := by
  intro f
  induction f with
  | zero => intro n; simp [toDecCore]
  | succ f ih =>
      intro n
      by_cases h10 : n < 10
      · simp [toDecCore, if_pos h10]
      · rw [toDecCore, if_neg h10]
        rw [List.length_append]
        have := ih (n / 10)
        simp only [List.length_singleton]
        omega

theorem head_append_left {l t : List Char} (h : l ≠ []) : (l ++ t).head? = l.head? := by
  cases l with
  | nil => exact absurd rfl h
  | cons c cs => rfl

theorem toDecCore_head_ne_zero : ∀ f n, 0 < n → n < 10 ^ f → (toDecCore f n).head? ≠ some '0' := by
  intro f
  induction f with
  | zero => intro n h1 h2; simp only [pow_zero] at h2; omega
  | succ f ih =>
      intro n h1 h2
      by_cases h10 : n < 10
      · rw [toDecCore, if_pos h10]
        simp only [List.head?_cons, ne_eq, Option.some.injEq]
        exact digitChar_ne_zero h1 h10
      · rw [toDecCore, if_neg h10]
        have hf : 0 < f := by
          by_contra hf0
          have hz : f = 0 := by omega
          subst hz
          norm_num at h2
          omega
        have hpos : 0 < n / 10 := Nat.div_pos (by omega) (by norm_num)
        have hdiv : n / 10 < 10 ^ f := by
          apply Nat.div_lt_of_lt_mul
          rw [pow_succ] at h2
          omega
        rw [head_append_left (toDecCore_ne_nil f (n / 10) hf)]
        exact ih (n / 10) hpos hdiv

theorem toDecCore_fuel_free :
    ∀ f g n, 0 < f → 0 < g → n < 10 ^ f → n < 10 ^ g → toDecCore f n = toDecCore g n := by
  intro f
  induction f with
  | zero => intro g n hf; omega
  | succ f ih =>
      intro g n _ hg hnf hng
      cases g with
      | zero => omega
      | succ g =>
          by_cases h10 : n < 10
          · rw [toDecCore, toDecCore, if_pos h10, if_pos h10]
          · rw [toDecCore, toDecCore, if_neg h10, if_neg h10]
            have hf' : 0 < f := by
              by_contra h0
              have hz : f = 0 := by omega
              subst hz
              norm_num at hnf
              omega
            have hg' : 0 < g := by
              by_contra h0
              have hz : g = 0 := by omega
              subst hz
              norm_num at hng
              omega
            have hdf : n / 10 < 10 ^ f := by
              apply Nat.div_lt_of_lt_mul
              rw [pow_succ] at hnf
              omega
            have hdg : n / 10 < 10 ^ g := by
              apply Nat.div_lt_of_lt_mul
              rw [pow_succ] at hng
              omega
            rw [ih g (n / 10) hf' hg' hdf hdg]

theorem lt_ten_pow_succ_self (n : ℕ) : n < 10 ^ (n + 1) := by
  have h1 : n < 10 ^ n := Nat.lt_pow_self (by norm_num) n
  exact lt_of_lt_of_le h1 (Nat.pow_le_pow_right (by norm_num) (by omega))

theorem toDec_parse (n : ℕ) : parseDec (toDec n) = n :=
  toDecCore_parse (n + 1) n (lt_ten_pow_succ_self n)

theorem toDec_digits {n : ℕ} {c : Char} (h : c ∈ toDec n) : isDigitChar c = true :=
  toDecCore_digits (n + 1) n c h

theorem toDec_ne_nil (n : ℕ) : toDec n ≠ [] :=
  toDecCore_ne_nil (n + 1) n (by omega)

theorem toDec_length_le {n : ℕ} (h : n ≤ 999) : (toDec n).length ≤ 3 := by
  rw [toDec, toDecCore_fuel_free (n + 1) 3 n (by omega) (by norm_num)
    (lt_ten_pow_succ_self n) (by norm_num; omega)]
  exact toDecCore_length 3 n

theorem leadZero_of_head {l : List Char} (h : l.head? ≠ some '0') : leadZero l = false := by
  cases l with
  | nil => rfl
  | cons c1 rest =>
      cases rest with
      | nil => rfl
      | cons c2 t =>
          simp only [List.head?_cons, ne_eq, Option.some.injEq] at h
          simp only [leadZero]
          rw [decide_eq_false h, Bool.false_and]

theorem leadZero_toDec (n : ℕ) : leadZero (toDec n) = false := by
  by_cases h0 : n = 0
  · subst h0
    decide
  · exact leadZero_of_head (toDecCore_head_ne_zero (n + 1) n (by omega) (lt_ten_pow_succ_self n))

/-! ### Digit-group scanning -/

theorem dg_fold_nondigits :
    ∀ (a : List Char) (gs : List (List Char)), (∀ c ∈ a, isDigitChar c = false) →
      a.foldl dgStep (gs, []) = (gs, []) := by
  intro a
  induction a with
  | nil => intro gs _; rfl
  | cons c rest ih =>
      intro gs h
      have hc : isDigitChar c = false := h c (by simp)
      have hstep : dgStep (gs, []) c = (gs, []) := by
        simp [dgStep, hc]
      rw [List.foldl_cons, hstep]
      exact ih gs fun d hd => h d (by simp [hd])

theorem dg_fold_digits :
    ∀ (d cur : List Char) (gs : List (List Char)),
      (∀ c ∈ d, isDigitChar c = true) → cur.length + d.length ≤ 3 →
      d.foldl dgStep (gs, cur) = (gs, cur ++ d) := by
  intro d
  induction d with
  | nil => intro cur gs _ _; simp
  | cons c rest ih =>
      intro cur gs h hlen
      have hc : isDigitChar c = true := h c (by simp)
      have hne : ¬cur.length = 3 := by
        simp only [List.length_cons] at hlen
        omega
      have hstep : dgStep (gs, cur) c = (gs, cur ++ [c]) := by
        simp [dgStep, hc, hne]
      rw [List.foldl_cons, hstep]
      have hlen2 : (cur ++ [c]).length + rest.length ≤ 3 := by
        rw [List.length_append, List.length_singleton]
        simp only [List.length_cons] at hlen
        omega
      rw [ih (cur ++ [c]) gs (fun x hx => h x (by simp [hx])) hlen2]
      simp

theorem dg_step_close {gs : List (List Char)} {cur : List Char} {c : Char}
    (hc : isDigitChar c = false) (hne : cur ≠ []) :
    dgStep (gs, cur) c = (gs ++ [cur], []) := by
  simp [dgStep, hc, List.isEmpty_iff, hne]

theorem dg_fold_sep (s : List Char) (gs : List (List Char)) (cur : List Char)
    (h : ∀ c ∈ s, isDigitChar c = false) (hs : s ≠ []) (hcur : cur ≠ []) :
    s.foldl dgStep (gs, cur) = (gs ++ [cur], []) := by
  cases s with
  | nil => exact absurd rfl hs
  | cons c rest =>
      rw [List.foldl_cons, dg_step_close (h c (by simp)) hcur]
      exact dg_fold_nondigits rest _ fun d hd => h d (by simp [hd])

theorem digitGroups_three
    (p d1 s1 d2 s2 d3 s3 : List Char)
    (hp : ∀ c ∈ p, isDigitChar c = false)
    (h1 : ∀ c ∈ d1, isDigitChar c = true) (h1n : d1 ≠ []) (h1l : d1.length ≤ 3)
    (hs1 : ∀ c ∈ s1, isDigitChar c = false) (hs1n : s1 ≠ [])
    (h2 : ∀ c ∈ d2, isDigitChar c = true) (h2n : d2 ≠ []) (h2l : d2.length ≤ 3)
    (hs2 : ∀ c ∈ s2, isDigitChar c = false) (hs2n : s2 ≠ [])
    (h3 : ∀ c ∈ d3, isDigitChar c = true) (h3n : d3 ≠ []) (h3l : d3.length ≤ 3)
    (hs3 : ∀ c ∈ s3, isDigitChar c = false) :
    digitGroups (p ++ d1 ++ s1 ++ d2 ++ s2 ++ d3 ++ s3) = [d1, d2, d3] := by
  have e1 : p.foldl dgStep ([], []) = ([], []) := dg_fold_nondigits p [] hp
  have e2 : d1.foldl dgStep ([], []) = ([], d1) := by
    simpa using dg_fold_digits d1 [] [] h1 (by simpa using h1l)
  have e3 : s1.foldl dgStep ([], d1) = ([d1], []) := by
    simpa using dg_fold_sep s1 [] d1 hs1 hs1n h1n
  have e4 : d2.foldl dgStep ([d1], []) = ([d1], d2) := by
    simpa using dg_fold_digits d2 [] [d1] h2 (by simpa using h2l)
  have e5 : s2.foldl dgStep ([d1], d2) = ([d1, d2], []) := by
    simpa using dg_fold_sep s2 [d1] d2 hs2 hs2n h2n
  have e6 : d3.foldl dgStep ([d1, d2], []) = ([d1, d2], d3) := by
    simpa using dg_fold_digits d3 [] [d1, d2] h3 (by simpa using h3l)
  unfold digitGroups
  rw [List.foldl_append, List.foldl_append, List.foldl_append, List.foldl_append,
    List.foldl_append, List.foldl_append, e1, e2, e3, e4, e5, e6]
  by_cases hs3e : s3 = []
  · subst hs3e
    simp [List.isEmpty_iff, h3n]
  · have e7 : s3.foldl dgStep ([d1, d2], d3) = ([d1, d2, d3], []) := by
      simpa using dg_fold_sep s3 [d1, d2] d3 hs3 hs3e h3n
    rw [e7]
    simp

theorem dg_step_digit (st : List (List Char) × List Char) {c : Char}
    (hc : isDigitChar c = true) :
    (dgStep st c).1 ≠ [] ∨ (dgStep st c).2 ≠ [] := by
  unfold dgStep
  rw [if_pos hc]
  split_ifs <;> simp

theorem dg_fold_keeps (l : List Char) (st : List (List Char) × List Char)
    (h : st.1 ≠ [] ∨ st.2 ≠ []) :
    (l.foldl dgStep st).1 ≠ [] ∨ (l.foldl dgStep st).2 ≠ [] := by
  induction l generalizing st with
  | nil => exact h
  | cons c rest ih =>
      rw [List.foldl_cons]
      apply ih
      unfold dgStep
      split_ifs with hd he <;> simp_all

theorem digitGroups_ne_nil {l : List Char} {c : Char} (hm : c ∈ l)
    (hc : isDigitChar c = true) : digitGroups l ≠ [] := by
  obtain ⟨l1, l2, rfl⟩ := List.append_of_mem hm
  unfold digitGroups
  rw [List.foldl_append, List.foldl_cons]
  have h2 := dg_fold_keeps l2 _ (dg_step_digit (l1.foldl dgStep ([], [])) hc)
  by_cases he : ((l2.foldl dgStep (dgStep (l1.foldl dgStep ([], [])) c)).2).isEmpty
  · rw [if_pos he]
    rcases h2 with h | h
    · exact h
    · exact absurd (by simpa [List.isEmpty_iff] using he) h
  · rw [if_neg he]
    simp

/-! ### Digit-run consumption for the format regexes -/

theorem takeWhile_digits_append {d : List Char} {c : Char} {t : List Char}
    (hd : ∀ x ∈ d, isDigitChar x = true) (hc : isDigitChar c = false) :
    (d ++ c :: t).takeWhile isDigitChar = d := by
  induction d with
  | nil => simp [List.takeWhile_cons, hc]
  | cons x xs ih =>
      rw [List.cons_append, List.takeWhile_cons, hd x (by simp)]
      simp only [if_true]
      rw [ih fun y hy => hd y (by simp [hy])]

theorem dropWhile_digits_append {d : List Char} {c : Char} {t : List Char}
    (hd : ∀ x ∈ d, isDigitChar x = true) (hc : isDigitChar c = false) :
    (d ++ c :: t).dropWhile isDigitChar = c :: t := by
  induction d with
  | nil => simp [List.dropWhile_cons, hc]
  | cons x xs ih =>
      rw [List.cons_append, List.dropWhile_cons, hd x (by simp)]
      simp only [if_true]
      exact ih fun y hy => hd y (by simp [hy])

theorem chompDigits_append {d t : List Char} {c : Char}
    (hd : ∀ x ∈ d, isDigitChar x = true) (hn : d ≠ []) (hl : d.length ≤ 3)
    (hc : isDigitChar c = false) :
    chompDigits (d ++ c :: t) = some (c :: t) := by
  unfold chompDigits
  rw [takeWhile_digits_append hd hc, dropWhile_digits_append hd hc]
  rw [if_neg]
  simp only [Bool.or_eq_true, List.isEmpty_iff, decide_eq_true_eq, not_or]
  exact ⟨hn, by omega⟩

theorem chompDigits_has_digit {l r : List Char} (h : chompDigits l = some r) :
    ∃ c ∈ l, isDigitChar c = true := by
  unfold chompDigits at h
  by_cases he : (l.takeWhile isDigitChar).isEmpty = true ∨ 3 < (l.takeWhile isDigitChar).length
  · rw [if_pos (by simpa using he)] at h
    exact absurd h (by simp)
  · rcases htw : l.takeWhile isDigitChar with _ | ⟨c, cs⟩
    · rw [htw] at he
      exact absurd (Or.inl (by simp : ([] : List Char).isEmpty = true)) he
    · refine ⟨c, ?_, ?_⟩
      · exact (List.takeWhile_sublist isDigitChar).subset (by rw [htw]; simp)
      · have : c ∈ l.takeWhile isDigitChar := by rw [htw]; simp
        exact List.mem_takeWhile_imp this

/-! ### Small string helpers -/

theorem data_mk (l : List Char) : (String.mk l).data = l := rfl

theorem mk_cons_ne_empty {c : Char} {l : List Char} : String.mk (c :: l) ≠ "" := by
  intro h
  have hd := congrArg String.data h
  simp at hd

theorem isJsSpace_range {c : Char} (h : isJsSpace c = true) :
    c.toNat ≤ 32 ∨ 160 ≤ c.toNat := by
  have hm : c ∈ jsSpaceChars := by simpa [isJsSpace] using h
  fin_cases hm <;> decide

theorem nonspace_printable {c : Char} (h1 : 33 ≤ c.toNat) (h2 : c.toNat ≤ 159) :
    isJsSpace c = false := by
  cases hs : isJsSpace c
  · rfl
  · exact absurd (isJsSpace_range hs) (by omega)

theorem toLowerChar_of_not_upper {c : Char} (h : c.toNat < 65 ∨ 90 < c.toNat) :
    toLowerChar c = c := by
  unfold toLowerChar
  rw [if_neg]
  simp only [Bool.and_eq_true, decide_eq_true_eq, not_and]
  omega

/-! ### Format-valid strings contain a digit, so the validators never crash -/

theorem map_toLowerChar_digits {d : List Char} (h : ∀ c ∈ d, isDigitChar c = true) :
    d.map toLowerChar = d := by
  induction d with
  | nil => rfl
  | cons x xs ih =>
      rw [List.map_cons, toLowerChar_of_digit (h x (by simp)),
        ih fun y hy => h y (by simp [hy])]

theorem filter_nonspace_digits {d : List Char} (h : ∀ c ∈ d, isDigitChar c = true) :
    (d.filter fun c => !isJsSpace c) = d := by
  apply List.filter_eq_self.mpr
  intro c hc
  rw [isJsSpace_of_digit (h c hc)]
  rfl

theorem commaSpace_digits {d : List Char} (h : ∀ c ∈ d, isDigitChar c = true) :
    commaSpace d = d := by
  induction d with
  | nil => rfl
  | cons x xs ih =>
      have hx : ¬x = ',' := by
        intro hc
        have := h x (by simp)
        rw [hc] at this
        exact absurd this (by decide)
      unfold commaSpace at ih ⊢
      rw [List.flatMap_cons, if_neg hx, ih fun y hy => h y (by simp [hy])]
      rfl

theorem rgbFormat_has_digit {l : List Char} (h : rgbFormatValid l = true) :
    ∃ c ∈ l, isDigitChar c = true := by
  rcases l with _ | ⟨c1, _ | ⟨c2, _ | ⟨c3, _ | ⟨c4, rest⟩⟩⟩⟩ <;>
    simp only [rgbFormatValid, Bool.false_eq_true] at h
  have hsome : (rgbTail rest).isSome = true := by
    simp only [Bool.and_eq_true] at h
    exact h.2
  unfold rgbTail at hsome
  cases hch : chompDigits rest with
  | none => rw [hch] at hsome; simp at hsome
  | some r1 =>
      obtain ⟨c, hc, hd⟩ := chompDigits_has_digit hch
      exact ⟨c, by simp [hc], hd⟩

theorem hslFormat_has_digit {l : List Char} (h : hslFormatValid l = true) :
    ∃ c ∈ l, isDigitChar c = true := by
  rcases l with _ | ⟨c1, _ | ⟨c2, _ | ⟨c3, _ | ⟨c4, rest⟩⟩⟩⟩ <;>
    simp only [hslFormatValid, Bool.false_eq_true] at h
  have hsome : (hslTail rest).isSome = true := by
    simp only [Bool.and_eq_true] at h
    exact h.2
  unfold hslTail at hsome
  cases hch : chompDigits rest with
  | none => rw [hch] at hsome; simp at hsome
  | some r1 =>
      obtain ⟨c, hc, hd⟩ := chompDigits_has_digit hch
      exact ⟨c, by simp [hc], hd⟩

theorem trimmed_digit {s : String} (h : ∃ d ∈ (trimAndLowercase s).data, isDigitChar d = true) :
    ∃ c ∈ s.data, isDigitChar c = true := by
  obtain ⟨d, hd, hdig⟩ := h
  unfold trimAndLowercase at hd
  rw [data_mk] at hd
  obtain ⟨c, hcf, hcl⟩ := List.mem_map.mp hd
  refine ⟨c, List.mem_of_mem_filter hcf, ?_⟩
  apply isDigitChar_of_toLowerChar
  rw [hcl]
  exact hdig

theorem getValues_isSome {s : String} (h : ∃ c ∈ s.data, isDigitChar c = true) :
    (getValues s).isSome = true := by
  obtain ⟨c, hc, hd⟩ := h
  unfold getValues
  rw [if_neg]
  · simp
  · simp only [List.isEmpty_iff]
    exact digitGroups_ne_nil hc hd

theorem isRangeValid_isSome {s : String} (validator : ℕ → ℕ → Bool)
    (h : (getValues s).isSome = true) : (isRangeValid s validator).isSome = true := by
  unfold isRangeValid
  cases hg : getValues s with
  | none => rw [hg] at h; simp at h
  | some gs => simp

theorem isValidRgbColor_isSome (o : Option String) : (isValidRgbColor o).isSome = true := by
  cases o with
  | none => rfl
  | some s =>
      simp only [isValidRgbColor]
      by_cases he : s = ""
      · rw [if_pos he]; rfl
      · rw [if_neg he]
        by_cases hf : rgbFormatValid (trimAndLowercase s).data = true
        · rw [if_pos hf]
          exact isRangeValid_isSome _ (getValues_isSome (trimmed_digit (rgbFormat_has_digit hf)))
        · rw [if_neg hf]; rfl

theorem isValidHslColor_isSome (o : Option String) : (isValidHslColor o).isSome = true := by
  cases o with
  | none => rfl
  | some s =>
      simp only [isValidHslColor]
      by_cases he : s = ""
      · rw [if_pos he]; rfl
      · rw [if_neg he]
        by_cases hf : hslFormatValid (trimAndLowercase s).data = true
        · rw [if_pos hf]
          exact isRangeValid_isSome _ (getValues_isSome (trimmed_digit (hslFormat_has_digit hf)))
        · rw [if_neg hf]; rfl

theorem isValidColor_isSome (o : Option String) : (isValidColor o).isSome = true := by
  unfold isValidColor
  by_cases hh : isValidHexColorOpt o = true
  · rw [if_pos hh]; rfl
  · rw [if_neg hh]
    have hr := isValidRgbColor_isSome o
    cases hrgb : isValidRgbColor o with
    | none => rw [hrgb] at hr; simp at hr
    | some b =>
        cases b
        · exact isValidHslColor_isSome o
        · rfl

/-! ### The rendered rgb string and its parse -/

theorem mk_data (s : String) : String.mk s.data = s := rfl

theorem ne_empty_of_data_cons {s : String} {c : Char} {l : List Char}
    (h : s.data = c :: l) : s ≠ "" := by
  intro he
  rw [he] at h
  simp at h

theorem digitGroups_three'
    (p d1 s1 d2 s2 d3 s3 : List Char)
    (hp : ∀ c ∈ p, isDigitChar c = false)
    (h1 : ∀ c ∈ d1, isDigitChar c = true) (h1n : d1 ≠ []) (h1l : d1.length ≤ 3)
    (hs1 : ∀ c ∈ s1, isDigitChar c = false) (hs1n : s1 ≠ [])
    (h2 : ∀ c ∈ d2, isDigitChar c = true) (h2n : d2 ≠ []) (h2l : d2.length ≤ 3)
    (hs2 : ∀ c ∈ s2, isDigitChar c = false) (hs2n : s2 ≠ [])
    (h3 : ∀ c ∈ d3, isDigitChar c = true) (h3n : d3 ≠ []) (h3l : d3.length ≤ 3)
    (hs3 : ∀ c ∈ s3, isDigitChar c = false) :
    digitGroups (p ++ (d1 ++ (s1 ++ (d2 ++ (s2 ++ (d3 ++ s3)))))) = [d1, d2, d3] := by
  have h := digitGroups_three p d1 s1 d2 s2 d3 s3 hp h1 h1n h1l hs1 hs1n h2 h2n h2l
    hs2 hs2n h3 h3n h3l hs3
  simpa [List.append_assoc] using h

theorem convertValuesToRgb_data (r g b : ℤ) (hr0 : 0 ≤ r) (hg0 : 0 ≤ g) (hb0 : 0 ≤ b) :
    (convertValuesToRgb [r, g, b]).data =
      ['r', 'g', 'b', '('] ++ (toDec r.natAbs ++ ([',', ' '] ++ (toDec g.natAbs ++
        ([',', ' '] ++ (toDec b.natAbs ++ [')']))))) := by
  unfold convertValuesToRgb
  rw [data_mk]
  simp only [List.map_cons, List.map_nil, joinSep]
  simp only [intToDecStr]
  rw [if_neg (by omega), if_neg (by omega), if_neg (by omega)]
  simp [List.append_assoc]

theorem trim_rgb_rendered (r g b : ℤ) (hr0 : 0 ≤ r) (hg0 : 0 ≤ g) (hb0 : 0 ≤ b) :
    (trimAndLowercase (convertValuesToRgb [r, g, b])).data =
      ['r', 'g', 'b', '('] ++ (toDec r.natAbs ++ ([','] ++ (toDec g.natAbs ++
        ([','] ++ (toDec b.natAbs ++ [')']))))) := by
  unfold trimAndLowercase
  rw [data_mk, convertValuesToRgb_data r g b hr0 hg0 hb0]
  simp only [List.filter_append, List.map_append]
  rw [filter_nonspace_digits fun c hc => toDec_digits hc,
    filter_nonspace_digits fun c hc => toDec_digits hc,
    filter_nonspace_digits fun c hc => toDec_digits hc,
    map_toLowerChar_digits fun c hc => toDec_digits hc,
    map_toLowerChar_digits fun c hc => toDec_digits hc,
    map_toLowerChar_digits fun c hc => toDec_digits hc]
  rw [show (['r', 'g', 'b', '('].filter fun c => !isJsSpace c) = ['r', 'g', 'b', '(']
      from by decide,
    show ([',', ' '].filter fun c => !isJsSpace c) = [','] from by decide,
    show ([')'].filter fun c => !isJsSpace c) = [')'] from by decide,
    show List.map toLowerChar ['r', 'g', 'b', '('] = ['r', 'g', 'b', '('] from by decide,
    show List.map toLowerChar [','] = [','] from by decide,
    show List.map toLowerChar [')'] = [')'] from by decide]

theorem rgbTail_shape (d1 d2 d3 : List Char)
    (h1 : ∀ c ∈ d1, isDigitChar c = true) (h1n : d1 ≠ []) (h1l : d1.length ≤ 3)
    (h2 : ∀ c ∈ d2, isDigitChar c = true) (h2n : d2 ≠ []) (h2l : d2.length ≤ 3)
    (h3 : ∀ c ∈ d3, isDigitChar c = true) (h3n : d3 ≠ []) (h3l : d3.length ≤ 3) :
    rgbTail (d1 ++ ',' :: (d2 ++ ',' :: (d3 ++ [')']))) = some () := by
  unfold rgbTail
  rw [chompDigits_append h1 h1n h1l (by decide)]
  simp only [Option.bind_eq_bind, Option.some_bind, expectChar, eq_self_iff_true, if_true]
  rw [chompDigits_append h2 h2n h2l (by decide)]
  simp only [Option.some_bind, expectChar, eq_self_iff_true, if_true]
  rw [chompDigits_append h3 h3n h3l (by decide)]
  simp only [Option.some_bind, expectChar, eq_self_iff_true, if_true]
  simp

theorem rgbFormatValid_rendered (r g b : ℤ) (hr0 : 0 ≤ r) (hr : r ≤ 255)
    (hg0 : 0 ≤ g) (hg : g ≤ 255) (hb0 : 0 ≤ b) (hb : b ≤ 255) :
    rgbFormatValid (trimAndLowercase (convertValuesToRgb [r, g, b])).data = true := by
  rw [trim_rgb_rendered r g b hr0 hg0 hb0]
  simp only [List.cons_append, List.nil_append]
  simp only [rgbFormatValid, decide_eq_true_eq]
  have ht := rgbTail_shape (toDec r.natAbs) (toDec g.natAbs) (toDec b.natAbs)
    (fun c hc => toDec_digits hc) (toDec_ne_nil _) (toDec_length_le (by omega))
    (fun c hc => toDec_digits hc) (toDec_ne_nil _) (toDec_length_le (by omega))
    (fun c hc => toDec_digits hc) (toDec_ne_nil _) (toDec_length_le (by omega))
  simp only [List.cons_append, List.nil_append] at ht
  simp [ht]

theorem commaSpace_append (a b : List Char) :
    commaSpace (a ++ b) = commaSpace a ++ commaSpace b := by
  unfold commaSpace
  induction a with
  | nil => simp
  | cons x xs ih => simp [ih]

theorem getValues_rendered (r g b : ℤ) (hr0 : 0 ≤ r) (hr : r ≤ 255)
    (hg0 : 0 ≤ g) (hg : g ≤ 255) (hb0 : 0 ≤ b) (hb : b ≤ 255) :
    getValues (convertValuesToRgb [r, g, b]) =
      some [toDec r.natAbs, toDec g.natAbs, toDec b.natAbs] := by
  unfold getValues
  rw [convertValuesToRgb_data r g b hr0 hg0 hb0]
  rw [digitGroups_three' ['r', 'g', 'b', '('] (toDec r.natAbs) [',', ' '] (toDec g.natAbs)
    [',', ' '] (toDec b.natAbs) [')'] (by decide)
    (fun c hc => toDec_digits hc) (toDec_ne_nil _) (toDec_length_le (by omega))
    (by decide) (by decide)
    (fun c hc => toDec_digits hc) (toDec_ne_nil _) (toDec_length_le (by omega))
    (by decide) (by decide)
    (fun c hc => toDec_digits hc) (toDec_ne_nil _) (toDec_length_le (by omega))
    (by decide)]
  simp

theorem isRangeValid_rendered (r g b : ℤ) (hr0 : 0 ≤ r) (hr : r ≤ 255)
    (hg0 : 0 ≤ g) (hg : g ≤ 255) (hb0 : 0 ≤ b) (hb : b ≤ 255) :
    isRangeValid (convertValuesToRgb [r, g, b]) rgbRange = some true := by
  unfold isRangeValid
  rw [getValues_rendered r g b hr0 hr hg0 hg hb0 hb]
  simp only [List.all_cons, List.all_nil, leadZero_toDec, List.map_cons, List.map_nil,
    allFromIndex, toDec_parse, rgbRange]
  simp only [Bool.not_false, Bool.and_true, Bool.true_and, Option.some.injEq]
  simp only [Bool.and_eq_true, decide_eq_true_eq]
  omega

theorem isValidHexColor_rendered_false (r g b : ℤ) (hr0 : 0 ≤ r)
    (hg0 : 0 ≤ g) (hb0 : 0 ≤ b) :
    isValidHexColor (convertValuesToRgb [r, g, b]) = false := by
  have hd := convertValuesToRgb_data r g b hr0 hg0 hb0
  simp only [isValidHexColor]
  rw [hd]
  simp

theorem isValidRgbColor_rendered (r g b : ℤ) (hr0 : 0 ≤ r) (hr : r ≤ 255)
    (hg0 : 0 ≤ g) (hg : g ≤ 255) (hb0 : 0 ≤ b) (hb : b ≤ 255) :
    isValidRgbColor (some (convertValuesToRgb [r, g, b])) = some true := by
  simp only [isValidRgbColor]
  rw [if_neg (ne_empty_of_data_cons (s := convertValuesToRgb [r, g, b])
    (by rw [convertValuesToRgb_data r g b hr0 hg0 hb0]; rfl))]
  rw [if_pos (rgbFormatValid_rendered r g b hr0 hr hg0 hg hb0 hb)]
  exact isRangeValid_rendered r g b hr0 hr hg0 hg hb0 hb

theorem resolveColorType_rendered (r g b : ℤ) (hr0 : 0 ≤ r) (hr : r ≤ 255)
    (hg0 : 0 ≤ g) (hg : g ≤ 255) (hb0 : 0 ≤ b) (hb : b ≤ 255) :
    resolveColorType (convertValuesToRgb [r, g, b]) = .ok .rgb := by
  unfold resolveColorType
  rw [isValidHexColor_rendered_false r g b hr0 hg0 hb0,
    isValidRgbColor_rendered r g b hr0 hr hg0 hg hb0 hb]
  simp

theorem map_lower_rendered (r g b : ℤ) (hr0 : 0 ≤ r) (hg0 : 0 ≤ g) (hb0 : 0 ≤ b) :
    (convertValuesToRgb [r, g, b]).data.map toLowerChar = (convertValuesToRgb [r, g, b]).data := by
  rw [convertValuesToRgb_data r g b hr0 hg0 hb0]
  simp only [List.map_append]
  rw [map_toLowerChar_digits fun c hc => toDec_digits hc,
    map_toLowerChar_digits fun c hc => toDec_digits hc,
    map_toLowerChar_digits fun c hc => toDec_digits hc,
    show List.map toLowerChar ['r', 'g', 'b', '('] = ['r', 'g', 'b', '('] from by decide,
    show List.map toLowerChar [',', ' '] = [',', ' '] from by decide,
    show List.map toLowerChar [')'] = [')'] from by decide]

theorem normalizeRgbColor_rendered (r g b : ℤ) (hr0 : 0 ≤ r) (hr : r ≤ 255)
    (hg0 : 0 ≤ g) (hg : g ≤ 255) (hb0 : 0 ≤ b) (hb : b ≤ 255) :
    normalizeRgbColor (convertValuesToRgb [r, g, b]) =
      .ok (String.mk (['r', 'g', 'b', '('] ++ (toDec r.natAbs ++ ([',', ' '] ++
        (toDec g.natAbs ++ ([',', ' '] ++ (toDec b.natAbs ++ [')']))))))) := by
  simp only [normalizeRgbColor]
  rw [map_lower_rendered r g b hr0 hg0 hb0, mk_data,
    isValidRgbColor_rendered r g b hr0 hr hg0 hg hb0 hb]
  have hrs : removeSpaces (convertValuesToRgb [r, g, b]).data =
      ['r', 'g', 'b', '('] ++ (toDec r.natAbs ++ ([','] ++ (toDec g.natAbs ++
        ([','] ++ (toDec b.natAbs ++ [')']))))) := by
    unfold removeSpaces
    rw [convertValuesToRgb_data r g b hr0 hg0 hb0]
    simp only [List.filter_append]
    rw [filter_nonspace_digits fun c hc => toDec_digits hc,
      filter_nonspace_digits fun c hc => toDec_digits hc,
      filter_nonspace_digits fun c hc => toDec_digits hc,
      show (['r', 'g', 'b', '('].filter fun c => !isJsSpace c) = ['r', 'g', 'b', '(']
        from by decide,
      show ([',', ' '].filter fun c => !isJsSpace c) = [','] from by decide,
      show ([')'].filter fun c => !isJsSpace c) = [')'] from by decide]
  rw [hrs]
  rw [commaSpace_append, commaSpace_append, commaSpace_append, commaSpace_append,
    commaSpace_append, commaSpace_append]
  rw [commaSpace_digits fun c hc => toDec_digits hc,
    commaSpace_digits fun c hc => toDec_digits hc,
    commaSpace_digits fun c hc => toDec_digits hc,
    show commaSpace ['r', 'g', 'b', '('] = ['r', 'g', 'b', '('] from by decide,
    show commaSpace [','] = [',', ' '] from by decide,
    show commaSpace [')'] = [')'] from by decide]

theorem splitRgbColor_normalized (r g b : ℤ) (hr0 : 0 ≤ r) (hr : r ≤ 255)
    (hg0 : 0 ≤ g) (hg : g ≤ 255) (hb0 : 0 ≤ b) (hb : b ≤ 255) :
    splitRgbColor (String.mk (['r', 'g', 'b', '('] ++ (toDec r.natAbs ++ ([',', ' '] ++
      (toDec g.natAbs ++ ([',', ' '] ++ (toDec b.natAbs ++ [')']))))))) = .ok [r, g, b] := by
  unfold splitRgbColor getValues
  rw [data_mk]
  rw [digitGroups_three' ['r', 'g', 'b', '('] (toDec r.natAbs) [',', ' '] (toDec g.natAbs)
    [',', ' '] (toDec b.natAbs) [')'] (by decide)
    (fun c hc => toDec_digits hc) (toDec_ne_nil _) (toDec_length_le (by omega))
    (by decide) (by decide)
    (fun c hc => toDec_digits hc) (toDec_ne_nil _) (toDec_length_le (by omega))
    (by decide) (by decide)
    (fun c hc => toDec_digits hc) (toDec_ne_nil _) (toDec_length_le (by omega))
    (by decide)]
  simp only [List.isEmpty_cons, Bool.false_eq_true, if_false, List.map_cons, List.map_nil,
    toDec_parse]
  rw [Int.natAbs_of_nonneg hr0, Int.natAbs_of_nonneg hg0, Int.natAbs_of_nonneg hb0]

theorem parseColor_convertValuesToRgb (r g b : ℤ) (hr0 : 0 ≤ r) (hr : r ≤ 255)
    (hg0 : 0 ≤ g) (hg : g ≤ 255) (hb0 : 0 ≤ b) (hb : b ≤ 255) :
    parseColor (convertValuesToRgb [r, g, b]) = .ok [r, g, b] := by
  unfold parseColor
  rw [resolveColorType_rendered r g b hr0 hr hg0 hg hb0 hb]
  show parseRgbColor _ = _
  unfold parseRgbColor
  rw [normalizeRgbColor_rendered r g b hr0 hr hg0 hg hb0 hb]
  exact splitRgbColor_normalized r g b hr0 hr hg0 hg hb0 hb

/-! ### Bounds for the emitted hue -/

theorem div_bounds (num den : ℚ) (hpos : 0 < den) (h1 : num ≤ den) (h2 : -den ≤ num) :
    -1 ≤ num / den ∧ num / den ≤ 1 := by
  constructor
  · rw [le_div_iff hpos]
    linarith
  · rw [div_le_one hpos]
    exact h1

theorem jsMod_small {q : ℚ} (h1 : -1 ≤ q) (h2 : q ≤ 1) : jsMod q 6 = q := by
  unfold jsMod ratTrunc
  by_cases hneg : q / 6 < 0
  · rw [if_pos hneg]
    have hc : ⌈q / 6⌉ = 0 := by
      rw [Int.ceil_eq_zero_iff]
      constructor
      · show (-1 : ℚ) < q / 6
        linarith
      · linarith
    rw [hc]
    push_cast
    ring
  · rw [if_neg hneg]
    have hf : ⌊q / 6⌋ = 0 := by
      rw [Int.floor_eq_zero_iff]
      constructor
      · linarith
      · show q / 6 < 1
        linarith
    rw [hf]
    push_cast
    ring

theorem hslIntermediaryHue_bounds (nR nG nB : ℚ) :
    -1 ≤ hslIntermediaryHue nR nG nB ∧ hslIntermediaryHue nR nG nB ≤ 5 := by
  unfold hslIntermediaryHue
  dsimp only
  have hMr : nR ≤ max nR (max nG nB) := le_max_left _ _
  have hMg : nG ≤ max nR (max nG nB) := le_trans (le_max_left _ _) (le_max_right _ _)
  have hMb : nB ≤ max nR (max nG nB) := le_trans (le_max_right _ _) (le_max_right _ _)
  have hmr : min nR (min nG nB) ≤ nR := min_le_left _ _
  have hmg : min nR (min nG nB) ≤ nG := le_trans (min_le_right _ _) (min_le_left _ _)
  have hmb : min nR (min nG nB) ≤ nB := le_trans (min_le_right _ _) (min_le_right _ _)
  by_cases hC : max nR (max nG nB) - min nR (min nG nB) = 0
  · rw [if_neg (by simpa using hC)]
    norm_num
  · rw [if_pos hC]
    have hCpos : 0 < max nR (max nG nB) - min nR (min nG nB) := by
      rcases lt_or_eq_of_le (by linarith : (0 : ℚ) ≤ max nR (max nG nB) - min nR (min nG nB))
        with h | h
      · exact h
      · exact absurd h.symm hC
    by_cases hr : max nR (max nG nB) = nR
    · rw [if_pos hr]
      obtain ⟨hq1, hq2⟩ := div_bounds (nG - nB) _ hCpos (by linarith) (by linarith)
      rw [jsMod_small hq1 hq2]
      constructor <;> linarith
    · rw [if_neg hr]
      by_cases hg : max nR (max nG nB) = nG
      · rw [if_pos hg]
        obtain ⟨hq1, hq2⟩ := div_bounds (nB - nR) _ hCpos (by linarith) (by linarith)
        constructor <;> linarith
      · rw [if_neg hg]
        obtain ⟨hq1, hq2⟩ := div_bounds (nR - nG) _ hCpos (by linarith) (by linarith)
        constructor <;> linarith

theorem hslComponents_hue_in_range (r g b : ℤ) :
    0 ≤ (hslComponents r g b).1 ∧ (hslComponents r g b).1 ≤ 359 := by
  obtain ⟨hl, hu⟩ := hslIntermediaryHue_bounds ((r : ℚ) / 255) ((g : ℚ) / 255) ((b : ℚ) / 255)
  unfold hslComponents
  dsimp only
  have hhl : (-60 : ℤ) ≤ round (hslIntermediaryHue ((r : ℚ) / 255) ((g : ℚ) / 255)
      ((b : ℚ) / 255) * 60) := by
    have h : ⌊(-60 : ℚ) + 1 / 2⌋ ≤ ⌊hslIntermediaryHue ((r : ℚ) / 255) ((g : ℚ) / 255)
        ((b : ℚ) / 255) * 60 + 1 / 2⌋ :=
      Int.floor_le_floor (by linarith)
    rw [round_eq]
    have hff : (⌊(-60 : ℚ) + 1 / 2⌋ : ℤ) = -60 := by norm_num [Int.floor_eq_iff]
    omega
  have hhu : round (hslIntermediaryHue ((r : ℚ) / 255) ((g : ℚ) / 255)
      ((b : ℚ) / 255) * 60) ≤ 300 := by
    have h : ⌊hslIntermediaryHue ((r : ℚ) / 255) ((g : ℚ) / 255) ((b : ℚ) / 255) * 60
        + 1 / 2⌋ ≤ ⌊(300 : ℚ) + 1 / 2⌋ :=
      Int.floor_le_floor (by linarith)
    rw [round_eq]
    have hff : (⌊(300 : ℚ) + 1 / 2⌋ : ℤ) = 300 := by norm_num [Int.floor_eq_iff]
    omega
  constructor <;> split_ifs <;> omega

/-! ### Result-monad reductions -/

theorem except_bind_error {ε α β : Type} (e : ε) (f : α → Except ε β) :
    (Except.error e >>= f) = Except.error e := rfl

theorem except_bind_ok {ε α β : Type} (a : α) (f : α → Except ε β) :
    (Except.ok a >>= f) = f a := rfl

theorem except_map_ok {ε α β : Type} (a : α) (f : α → β) :
    Except.map f (Except.ok a : Except ε α) = Except.ok (f a) := rfl

theorem except_bind_ok_meth {ε α β : Type} (a : α) (f : α → Except ε β) :
    (Except.ok a : Except ε α).bind f = f a := rfl

theorem except_bind_error_meth {ε α β : Type} (e : ε) (f : α → Except ε β) :
    (Except.error e : Except ε α).bind f = Except.error e := rfl

theorem except_pure {ε α : Type} (a : α) : (pure a : Except ε α) = Except.ok a := rfl

theorem except_map_error {ε α β : Type} (e : ε) (f : α → β) :
    Except.map f (Except.error e : Except ε α) = Except.error e := rfl

/-! ### Contrast symmetry -/

theorem contrastOfLums_comm (l1 l2 : ℝ) : contrastOfLums l1 l2 = contrastOfLums l2 l1 := by
  unfold contrastOfLums
  rcases lt_trichotomy l1 l2 with h | h | h
  · rw [if_pos h, if_neg (not_lt.mpr (le_of_lt h))]
  · rw [h]
  · rw [if_neg (not_lt.mpr (le_of_lt h)), if_pos h]

theorem contrast_symm_of_parse (c1 c2 : String) (v1 v2 : List ℤ)
    (h1 : parseColor c1 = .ok v1) (h2 : parseColor c2 = .ok v2) :
    calculateContrastRatio c1 c2 = calculateContrastRatio c2 c1 := by
  unfold calculateContrastRatio calculateLuminanceOf
  rw [h1, h2, except_map_ok, except_map_ok, except_bind_ok_meth, except_bind_ok_meth]
  rw [except_map_ok, except_map_ok]
  rw [contrastOfLums_comm]

/-! ### Luminance of black and white -/

theorem srgbChannel_white : srgbChannel 255 = 1 := by
  unfold srgbChannel
  dsimp only
  rw [if_neg (by norm_num)]
  rw [show (((255 : ℤ) : ℝ) / 255 + 0.055) / 1.055 = 1 by norm_num]
  exact Real.one_rpow _

theorem srgbChannel_black : srgbChannel 0 = 0 := by
  unfold srgbChannel
  dsimp only
  rw [if_pos (by norm_num)]
  norm_num

theorem lum_white : calculateLuminanceOf "#FFFFFF" = .ok 1 := by
  unfold calculateLuminanceOf
  rw [show parseColor "#FFFFFF" = .ok [255, 255, 255] from by decide, except_map_ok]
  congr 1
  unfold lumOfValues multipliers
  simp only [List.zipWith_cons_cons, List.zipWith_nil_right, List.sum_cons, List.sum_nil,
    srgbChannel_white]
  norm_num

theorem lum_black : calculateLuminanceOf "#000000" = .ok 0 := by
  unfold calculateLuminanceOf
  rw [show parseColor "#000000" = .ok [0, 0, 0] from by decide, except_map_ok]
  congr 1
  unfold lumOfValues multipliers
  simp only [List.zipWith_cons_cons, List.zipWith_nil_right, List.sum_cons, List.sum_nil,
    srgbChannel_black]
  norm_num

theorem contrast_black_white : calculateContrastRatio "#000000" "#FFFFFF" = .ok 21 := by
  unfold calculateContrastRatio
  rw [lum_black, lum_white, except_bind_ok_meth, except_map_ok]
  congr 1
  unfold contrastOfLums
  rw [if_pos (by norm_num : (0 : ℝ) < 1)]
  norm_num

/-! ### Which errors each stage can throw -/

theorem normalizeHexColor_error {s : String} {e : ThrownError}
    (h : normalizeHexColor s = .error e) : ∃ t, e = .invalidHex t := by
  unfold normalizeHexColor at h
  dsimp only at h
  split_ifs at h
  all_goals exact ⟨_, (Except.error.inj h).symm⟩

theorem parseHexColor_error {s : String} {e : ThrownError}
    (h : parseHexColor s = .error e) : ∃ t, e = .invalidHex t := by
  unfold parseHexColor at h
  cases hn : normalizeHexColor s with
  | error e2 =>
      rw [hn, except_bind_error] at h
      rw [← Except.error.inj h]
      exact normalizeHexColor_error hn
  | ok n =>
      rw [hn, except_bind_ok] at h
      exact absurd h (by simp [except_pure])

theorem splitRgbColor_error {s : String} {e : ThrownError}
    (h : splitRgbColor s = .error e) : e = .nullCrash := by
  unfold splitRgbColor at h
  cases hg : getValues s with
  | none => rw [hg] at h; exact (Except.error.inj h).symm
  | some gs => rw [hg] at h; exact absurd h (by simp)

theorem splitHslColor_error {s : String} {e : ThrownError}
    (h : splitHslColor s = .error e) : e = .nullCrash := by
  unfold splitHslColor at h
  cases hg : getValues s with
  | none => rw [hg] at h; exact (Except.error.inj h).symm
  | some gs => rw [hg] at h; exact absurd h (by simp)

theorem normalizeRgbColor_error {s : String} {e : ThrownError}
    (h : normalizeRgbColor s = .error e) : e = .nullCrash ∨ ∃ t, e = .invalidRgb t := by
  unfold normalizeRgbColor at h
  dsimp only at h
  cases hv : isValidRgbColor (some (String.mk (s.data.map toLowerChar))) with
  | none => rw [hv] at h; exact Or.inl (Except.error.inj h).symm
  | some b =>
      cases b
      · rw [hv] at h
        exact Or.inr ⟨_, (Except.error.inj h).symm⟩
      · rw [hv] at h
        exact absurd h (by simp)

theorem normalizeHslColor_error {s : String} {e : ThrownError}
    (h : normalizeHslColor s = .error e) : e = .nullCrash ∨ ∃ t, e = .invalidHsl t := by
  unfold normalizeHslColor at h
  dsimp only at h
  cases hv : isValidHslColor (some (String.mk (s.data.map toLowerChar))) with
  | none => rw [hv] at h; exact Or.inl (Except.error.inj h).symm
  | some b =>
      cases b
      · rw [hv] at h
        exact Or.inr ⟨_, (Except.error.inj h).symm⟩
      · rw [hv] at h
        exact absurd h (by simp)

theorem parseRgbColor_error {s : String} {e : ThrownError}
    (h : parseRgbColor s = .error e) : e = .nullCrash ∨ ∃ t, e = .invalidRgb t := by
  unfold parseRgbColor at h
  cases hn : normalizeRgbColor s with
  | error e2 =>
      rw [hn, except_bind_error] at h
      rw [← Except.error.inj h]
      exact normalizeRgbColor_error hn
  | ok n =>
      rw [hn, except_bind_ok] at h
      exact Or.inl (splitRgbColor_error h)

theorem parseHslColor_error {s : String} {e : ThrownError}
    (h : parseHslColor s = .error e) : e = .nullCrash ∨ ∃ t, e = .invalidHsl t := by
  unfold parseHslColor at h
  cases hn : normalizeHslColor s with
  | error e2 =>
      rw [hn, except_bind_error] at h
      rw [← Except.error.inj h]
      exact normalizeHslColor_error hn
  | ok n =>
      rw [hn, except_bind_ok] at h
      exact Or.inl (splitHslColor_error h)

theorem resolveColorType_error {s : String} {e : ThrownError}
    (h : resolveColorType s = .error e) : e = .nullCrash := by
  unfold resolveColorType at h
  split_ifs at h with h1
  cases hr : isValidRgbColor (some s) with
  | none => rw [hr] at h; exact (Except.error.inj h).symm
  | some b =>
      rw [hr] at h
      cases b
      · cases hh : isValidHslColor (some s) with
        | none => rw [hh] at h; exact (Except.error.inj h).symm
        | some b2 =>
            rw [hh] at h
            cases b2 <;> exact absurd h (by simp)
      · exact absurd h (by simp)

theorem parseColor_no_target {s : String} {e : ThrownError}
    (h : parseColor s = .error e) : e ≠ .invalidTarget := by
  unfold parseColor at h
  cases hr : resolveColorType s with
  | error e2 =>
      rw [hr] at h
      rw [← Except.error.inj h, resolveColorType_error hr]
      simp
  | ok t =>
      rw [hr] at h
      cases t
      · obtain ⟨u, hu⟩ := parseHexColor_error h
        rw [hu]
        simp
      · rcases parseRgbColor_error h with hu | ⟨u, hu⟩ <;> rw [hu] <;> simp
      · rcases parseHslColor_error h with hu | ⟨u, hu⟩ <;> rw [hu] <;> simp
      · rw [← Except.error.inj h]
        simp

theorem convert_of_parse_error (s : String) (t : ToArg) (e : ThrownError)
    (h : parseColor s = .error e) : convert s t = .error e := by
  unfold convert
  rw [h, except_bind_error_meth]

theorem convert_target_error (s : String) (t : ToArg)
    (h : convert s t = .error .invalidTarget) :
    ∃ vs, parseColor s = .ok vs ∧
      convertRawValuesTo vs (resolveToArg t) = .error .invalidTarget := by
  unfold convert at h
  cases hp : parseColor s with
  | error e =>
      rw [hp, except_bind_error_meth] at h
      exact absurd (Except.error.inj h) (parseColor_no_target hp)
  | ok vs =>
      rw [hp, except_bind_ok_meth] at h
      exact ⟨vs, rfl, h⟩

/-! ### splitHexColor on a valid normalized hex string -/

theorem toUpperChar_hex {c : Char} (h : isHexDigitChar c = true) :
    isUpperHexDigit (toUpperChar c) = true := by
  unfold isHexDigitChar isDigitChar at h
  simp only [Bool.or_eq_true, Bool.and_eq_true, decide_eq_true_eq] at h
  unfold toUpperChar isUpperHexDigit isDigitChar
  by_cases hc : 97 ≤ c.toNat ∧ c.toNat ≤ 122
  · rw [if_pos (by simpa using hc)]
    simp only [Bool.or_eq_true, Bool.and_eq_true, decide_eq_true_eq]
    rw [charOfNat_toNat_small (by omega) (by omega)]
    omega
  · rw [if_neg (by simpa using hc)]
    simp only [Bool.or_eq_true, Bool.and_eq_true, decide_eq_true_eq]
    omega

theorem splitHexColor_seven (c1 c2 c3 c4 c5 c6 : Char) :
    splitHexColor (String.mk ['#', c1, c2, c3, c4, c5, c6]) =
      [String.mk [toUpperChar c1, toUpperChar c2],
       String.mk [toUpperChar c3, toUpperChar c4],
       String.mk [toUpperChar c5, toUpperChar c6]] := rfl

theorem isValidHexColor_seven {c1 c2 c3 c4 c5 c6 : Char}
    (h : isValidHexColor (String.mk ['#', c1, c2, c3, c4, c5, c6]) = true) :
    isHexDigitChar c1 = true ∧ isHexDigitChar c2 = true ∧ isHexDigitChar c3 = true ∧
      isHexDigitChar c4 = true ∧ isHexDigitChar c5 = true ∧ isHexDigitChar c6 = true := by
  simp only [isValidHexColor, data_mk, List.length_cons, List.all_cons, List.all_nil,
    Bool.and_eq_true, Bool.and_true, decide_eq_true_eq] at h
  exact ⟨h.2.1, h.2.2.1, h.2.2.2.1, h.2.2.2.2.1, h.2.2.2.2.2.1, h.2.2.2.2.2.2⟩

/-! ### Leniency of hex normalization -/

theorem normalizeHexColor_prepend (s : String) (h : s.data.head? ≠ some '#') :
    normalizeHexColor s = normalizeHexColor (String.mk ('#' :: s.data)) := by
  unfold normalizeHexColor
  rw [data_mk]
  rw [if_neg h]
  simp

/-! ### Evaluation of the whitespace-split counterexamples -/

theorem hslToRgb_eval : hslToRgb 0 999 50 = [1401, -1146, -1146] := by
  simp only [hslToRgb, jsMod, ratTrunc]
  norm_num [round_eq]

theorem parse_hsl_whitespace_split :
    parseColor "hsl(0, 9 9 9%, 50%)" = .ok [1401, -1146, -1146] := by
  have h1 : parseColor "hsl(0, 9 9 9%, 50%)" = .ok (hslToRgb 0 999 50) := by rfl
  rw [h1, hslToRgb_eval]

/-! ### The claims -/

/-- Claim C1: the spec says hex round-trips exactly for every component value
in the unit range; the code pads with a zero only below ten, so the channels
ten through fifteen are rendered as a single hex digit.  At the triplet
(10, 11, 12) the produced string is the shorthand #abc, which normalizes to
#AABBCC and parses back to (170, 187, 204); at (15, 0, 0) the conversion even
throws, because #f0000 is no valid hex string. -/
theorem claim_hex_roundtrip_failure :
    (convertRawValuesTo [10, 11, 12] ColorTypes.hex).bind parseColor = .ok [170, 187, 204] ∧
    (convertRawValuesTo [10, 11, 12] ColorTypes.hex).bind parseColor ≠ .ok [10, 11, 12] ∧
    convertRawValuesTo [15, 0, 0] ColorTypes.hex = .error (.invalidHex "#f0000") := by
  refine ⟨by decide, by decide, by decide⟩

/-- Claim C2: the spec says every parsed triplet has three whole components in
the unit range; the range validator runs over the raw string, so whitespace
inside a number splits its digit groups and each fragment is range-checked
separately.  The valid-per-validator string rgb(9 9 9, 0, 0) parses to
(999, 0, 0), and hsl(0, 9 9 9%, 50%) drives the HSL transform of
splitHslColor to (1401, -1146, -1146), below 0 and above 255. -/
theorem claim_parse_range_violation :
    isValidRgbColor (some "rgb(9 9 9, 0, 0)") = some true ∧
    parseColor "rgb(9 9 9, 0, 0)" = .ok [999, 0, 0] ∧
    isValidHslColor (some "hsl(0, 9 9 9%, 50%)") = some true ∧
    parseColor "hsl(0, 9 9 9%, 50%)" = .ok [1401, -1146, -1146] := by
  refine ⟨by decide, by decide, by decide, parse_hsl_whitespace_split⟩

/-- Claim C3: for every RGB triplet with integer components between 0 and 255,
rendering it with convertValuesToRgb and parsing the string back returns the
triplet exactly. -/
theorem claim_rgb_roundtrip (r g b : ℤ) (hr0 : 0 ≤ r) (hr : r ≤ 255)
    (hg0 : 0 ≤ g) (hg : g ≤ 255) (hb0 : 0 ≤ b) (hb : b ≤ 255) :
    parseColor (convertValuesToRgb [r, g, b]) = .ok [r, g, b] :=
  parseColor_convertValuesToRgb r g b hr0 hr hg0 hg hb0 hb

/-- Claim C3 witness at the triplet (255, 165, 0). -/
theorem claim_rgb_roundtrip_witness :
    parseColor (convertValuesToRgb [255, 165, 0]) = .ok [255, 165, 0] :=
  claim_rgb_roundtrip 255 165 0 (by decide) (by decide) (by decide) (by decide)
    (by decide) (by decide)

/-- Claim C4: whenever both colors parse, the contrast ratio is symmetric in
its two arguments, because the two luminances are sorted before the division. -/
theorem claim_contrast_symmetric (c1 c2 : String) (v1 v2 : List ℤ)
    (h1 : parseColor c1 = .ok v1) (h2 : parseColor c2 = .ok v2) :
    calculateContrastRatio c1 c2 = calculateContrastRatio c2 c1 :=
  contrast_symm_of_parse c1 c2 v1 v2 h1 h2

/-- Claim C4 witness at black versus white. -/
theorem claim_contrast_symmetric_witness :
    calculateContrastRatio "#000000" "#FFFFFF" = calculateContrastRatio "#FFFFFF" "#000000" :=
  claim_contrast_symmetric "#000000" "#FFFFFF" [0, 0, 0] [255, 255, 255]
    (by decide) (by decide)

/-- Claim C5: normalizeHexColor prepends the hash sign before validating,
expands a three-digit candidate digit by digit and uppercases, so 123 becomes
hash-112233 and hash-fff becomes hash-FFFFFF, while isValidHexColor still
rejects 123: the leniency belongs to normalization only. -/
theorem claim_hex_normalization_leniency :
    (∀ s : String, s.data.head? ≠ some '#' →
      normalizeHexColor s = normalizeHexColor (String.mk ('#' :: s.data))) ∧
    normalizeHexColor "123" = .ok "#112233" ∧
    normalizeHexColor "#fff" = .ok "#FFFFFF" ∧
    isValidHexColor "123" = false :=
  ⟨normalizeHexColor_prepend, by decide, by decide, by decide⟩

/-- Claim C5 witness: the missing hash sign is prepended on the input 123. -/
theorem claim_hex_normalization_leniency_witness :
    normalizeHexColor "123" = normalizeHexColor "#123" :=
  claim_hex_normalization_leniency.1 "123" (by decide)

/-- Claim C6: all four validators return a boolean on every input, absent
arguments included: no call crashes, because a format-valid string always
holds a digit, so the digit extraction the range check relies on never yields
null; empty and absent input give false. -/
theorem claim_validators_total :
    (∀ o : Option String, (isValidColor o).isSome = true ∧
      (isValidRgbColor o).isSome = true ∧ (isValidHslColor o).isSome = true) ∧
    isValidColor none = some false ∧ isValidColor (some "") = some false ∧
    isValidHexColorOpt none = false ∧ isValidHexColorOpt (some "") = false ∧
    isValidRgbColor none = some false ∧ isValidRgbColor (some "") = some false ∧
    isValidHslColor none = some false ∧ isValidHslColor (some "") = some false :=
  ⟨fun o => ⟨isValidColor_isSome o, isValidRgbColor_isSome o, isValidHslColor_isSome o⟩,
   by decide, by decide, by decide, by decide, by decide, by decide, by decide, by decide⟩

/-- Claim C7 counterexample: splitHexColor performs no validation, so on the
invalid input nope it does not fail with an InvalidFormat error; it totally
returns the clamped substrings. -/
theorem claim_splitHex_counterexample :
    isValidHexColor "nope" = false ∧ splitHexColor "nope" = ["OP", "E", ""] := by
  refine ⟨by decide, by decide⟩

/-- Claim C7 as amended: splitHexColor never validates and never fails; on a
valid normalized hex string it returns the three two-character digit pairs,
uppercased. -/
theorem claim_splitHex_amended (c1 c2 c3 c4 c5 c6 : Char)
    (h : isValidHexColor (String.mk ['#', c1, c2, c3, c4, c5, c6]) = true) :
    splitHexColor (String.mk ['#', c1, c2, c3, c4, c5, c6]) =
      [String.mk [toUpperChar c1, toUpperChar c2],
       String.mk [toUpperChar c3, toUpperChar c4],
       String.mk [toUpperChar c5, toUpperChar c6]] ∧
    ∀ p ∈ splitHexColor (String.mk ['#', c1, c2, c3, c4, c5, c6]),
      p.data.length = 2 ∧ ∀ c ∈ p.data, isUpperHexDigit c = true := by
  obtain ⟨d1, d2, d3, d4, d5, d6⟩ := isValidHexColor_seven h
  refine ⟨splitHexColor_seven c1 c2 c3 c4 c5 c6, ?_⟩
  intro p hp
  rw [splitHexColor_seven] at hp
  simp only [List.mem_cons, List.not_mem_nil, or_false] at hp
  rcases hp with rfl | rfl | rfl
  · refine ⟨rfl, ?_⟩
    intro c hc
    simp only [data_mk, List.mem_cons, List.not_mem_nil, or_false] at hc
    rcases hc with rfl | rfl
    · exact toUpperChar_hex d1
    · exact toUpperChar_hex d2
  · refine ⟨rfl, ?_⟩
    intro c hc
    simp only [data_mk, List.mem_cons, List.not_mem_nil, or_false] at hc
    rcases hc with rfl | rfl
    · exact toUpperChar_hex d3
    · exact toUpperChar_hex d4
  · refine ⟨rfl, ?_⟩
    intro c hc
    simp only [data_mk, List.mem_cons, List.not_mem_nil, or_false] at hc
    rcases hc with rfl | rfl
    · exact toUpperChar_hex d5
    · exact toUpperChar_hex d6

/-- Claim C7 witness: the split of the valid normalized string FFA500. -/
theorem claim_splitHex_amended_witness :
    isValidHexColor "#FFA500" = true ∧ splitHexColor "#FFA500" = ["FF", "A5", "00"] := by
  refine ⟨by decide, ?_⟩
  have h := (claim_splitHex_amended 'F' 'F' 'A' '5' '0' '0' (by decide)).1
  exact h.trans (by decide)

/-- Claim C8: for every RGB triplet the hue figure of the hsl string built by
convertValuesToHsl is an integer between 0 and 359: a negative rounded hue is
wrapped by adding 360 and the value 360 is never emitted; the string is built
directly from these components. -/
theorem claim_hsl_hue_range (r g b : ℤ) (_hr0 : 0 ≤ r) (_hr : r ≤ 255)
    (_hg0 : 0 ≤ g) (_hg : g ≤ 255) (_hb0 : 0 ≤ b) (_hb : b ≤ 255) :
    0 ≤ (hslComponents r g b).1 ∧ (hslComponents r g b).1 ≤ 359 ∧
    convertValuesToHsl [r, g, b] = String.mk ('h' :: 's' :: 'l' :: '(' ::
      (intToDecStr (hslComponents r g b).1 ++ [',', ' '] ++
       intToDecStr (hslComponents r g b).2.1 ++ ['%', ',', ' '] ++
       intToDecStr (hslComponents r g b).2.2 ++ ['%', ')'])) := by
  obtain ⟨h1, h2⟩ := hslComponents_hue_in_range r g b
  exact ⟨h1, h2, rfl⟩

/-- Claim C8 witness at the triplet (255, 0, 0). -/
theorem claim_hsl_hue_range_witness :
    0 ≤ (hslComponents 255 0 0).1 ∧ (hslComponents 255 0 0).1 ≤ 359 :=
  ⟨(claim_hsl_hue_range 255 0 0 (by decide) (by decide) (by decide) (by decide)
      (by decide) (by decide)).1,
   (claim_hsl_hue_range 255 0 0 (by decide) (by decide) (by decide) (by decide)
      (by decide) (by decide)).2.1⟩

/-- Claim C9: the luminance of white is exactly 1 and of black exactly 0, and
the contrast ratio of black versus white is exactly 21. -/
theorem claim_black_white_photometrics :
    calculateLuminanceOf "#FFFFFF" = .ok 1 ∧ calculateLuminanceOf "#000000" = .ok 0 ∧
    calculateContrastRatio "#000000" "#FFFFFF" = .ok 21 :=
  ⟨lum_white, lum_black, contrast_black_white⟩

/-- Claim C10: convert evaluates the source before the target: when the source
fails to parse, convert surfaces that parse error for every target, valid or
not; and the invalid-target error appears only when the source parsed, with no
partial result. -/
theorem claim_convert_checks_source_first :
    (∀ (s : String) (t : ToArg) (e : ThrownError),
      parseColor s = .error e → convert s t = .error e) ∧
    (∀ (s : String) (t : ToArg), convert s t = .error .invalidTarget →
      ∃ vs, parseColor s = .ok vs ∧
        convertRawValuesTo vs (resolveToArg t) = .error .invalidTarget) :=
  ⟨convert_of_parse_error, convert_target_error⟩

/-- Claim C10 witness: an invalid source beats an invalid target, and the
target error implies a parsed source. -/
theorem claim_convert_checks_source_first_witness :
    convert "nope" (ToArg.ofString "hsl") = .error (.parseInvalid "nope") ∧
    (∃ vs, parseColor "#000000" = .ok vs ∧
      convertRawValuesTo vs (resolveToArg (ToArg.ofString "bad")) =
        .error .invalidTarget) :=
  ⟨claim_convert_checks_source_first.1 "nope" (ToArg.ofString "hsl")
      (.parseInvalid "nope") (by decide),
   claim_convert_checks_source_first.2 "#000000" (ToArg.ofString "bad") (by decide)⟩

end ColorUtilities
